import Mathlib

/-!
Shallow embedding of `src/backend/database.py`: an in-memory, dict-backed
collection mimicking a small subset of the PyMongo API (`count_documents`,
`insert_one`, `update_one`, `aggregate`), plus the module-level seed data and
`init_database`.

Python values are modelled by the closed variant `Value` (None, bool, int,
str, list, dict with string keys — the only shapes occurring in this program).
Python `==` is `pyEq` (order-insensitive on dicts, `True == 1` on numbers),
Python `<` is `pyLt`, partial: `none` models a `TypeError`.  Operations that
can raise return `Option`; `update_one` additionally returns the state because
Python mutates the stored document in place before an exception propagates.
-/

inductive Value where
  | null
  | bool (b : Bool)
  | int (n : Int)
  | str (s : String)
  | list (elems : List Value)
  | dict (fields : List (String × Value))
deriving Repr

abbrev Fields := List (String × Value)

/-- A collection's backing dict `self._docs`, keyed by `_id` value. -/
abbrev DbState := List (Value × Fields)

/-- An update expression: operator name to field map, in dict order. -/
abbrev Update := List (String × Fields)

/-- First value stored under string key `k` (Python `dict.get` on documents,
whose keys are strings). -/
def dictGet (fs : Fields) (k : String) : Option Value :=
  match fs with
  | [] => none
  | (k2, v) :: rest => if k == k2 then some v else dictGet rest k

/-- Python `d[k] = v` on a string-keyed dict: replace in place if the key is
present, else append at the end (insertion order). -/
def dictSet (fs : Fields) (k : String) (v : Value) : Fields :=
  match fs with
  | [] => [(k, v)]
  | (k2, w) :: rest => if k == k2 then (k2, v) :: rest else (k2, w) :: dictSet rest k v

/-- Python `key.split(".")`, char by char (e.g. `"a"` gives `["a"]`, `""`
gives `[""]`, `"a.b"` gives `["a", "b"]`). -/
def splitDotAux (cur : List Char) : List Char → List String
  | [] => [String.mk cur.reverse]
  | c :: rest =>
    if c == '.' then String.mk cur.reverse :: splitDotAux [] rest
    else splitDotAux (c :: cur) rest

def splitDot (s : String) : List String := splitDotAux [] s.data

/-- Python `s.lstrip("$")`: drop every leading `$`. -/
def dropDollar (s : String) : String := String.mk (s.data.dropWhile (· == '$'))

/-- Python `s.startswith("$")`. -/
def startsDollar (s : String) : Bool :=
  match s.data with
  | [] => false
  | c :: _ => c == '$'

/-- Is the needle a leading block of the haystack (char lists)? -/
def leadMatch : List Char → List Char → Bool
  | [], _ => true
  | _ :: _, [] => false
  | a :: as, b :: bs => a == b && leadMatch as bs

/-- Python `t in s` for strings: contiguous substring test. -/
def subMatch (n : List Char) : List Char → Bool
  | [] => leadMatch n []
  | c :: t => leadMatch n (c :: t) || subMatch n t

/-- Python string `<`: lexicographic on code points. -/
def charListLt : List Char → List Char → Bool
  | [], [] => false
  | [], _ :: _ => true
  | _ :: _, [] => false
  | a :: as, b :: bs => if a == b then charListLt as bs else decide (a < b)

def strLt (s t : String) : Bool := charListLt s.data t.data

/-- Python `bool` as a number (`True == 1`, `False == 0`). -/
def boolInt (b : Bool) : Int := if b then 1 else 0

mutual

/-- Python `==` on our value variant: numbers compare across `bool`/`int`,
lists pointwise, dicts as unordered key-to-value maps. Never raises. -/
def pyEq : Value → Value → Bool
  | .null, .null => true
  | .bool a, .bool b => a == b
  | .bool a, .int n => boolInt a == n
  | .int m, .bool b => m == boolInt b
  | .int m, .int n => m == n
  | .str s, .str t => s == t
  | .list xs, .list ys => pyEqList xs ys
  | .dict xs, .dict ys => xs.length == ys.length && pyEqFields xs ys
  | _, _ => false
termination_by a b => sizeOf a + sizeOf b
decreasing_by
  all_goals simp_wf
  all_goals omega

def pyEqList : List Value → List Value → Bool
  | [], [] => true
  | x :: xs, y :: ys => pyEq x y && pyEqList xs ys
  | _, _ => false
termination_by xs ys => sizeOf xs + sizeOf ys
decreasing_by
  all_goals simp_wf
  all_goals omega

def pyEqFields : List (String × Value) → List (String × Value) → Bool
  | [], _ => true
  | (k, v) :: rest, ys => pyFieldMem k v ys && pyEqFields rest ys
termination_by xs ys => sizeOf xs + sizeOf ys
decreasing_by
  all_goals simp_wf
  all_goals omega

def pyFieldMem : String → Value → List (String × Value) → Bool
  | _, _, [] => false
  | k, v, (k2, w) :: ys => (k == k2 && pyEq v w) || pyFieldMem k v ys
termination_by _ v ys => sizeOf v + sizeOf ys
decreasing_by
  all_goals simp_wf
  all_goals omega

end

mutual

/-- Python `<` on our value variant; `none` is a `TypeError`. Numbers
(`bool`/`int`) and strings compare within their class; lists compare
lexicographically (skipping `==` items, then comparing the first difference);
everything else — in particular anything against `None` — raises. -/
def pyLt : Value → Value → Option Bool
  | .bool a, .bool b => some (boolInt a < boolInt b)
  | .bool a, .int n => some (boolInt a < n)
  | .int m, .bool b => some (m < boolInt b)
  | .int m, .int n => some (m < n)
  | .str s, .str t => some (strLt s t)
  | .list xs, .list ys => pyLtList xs ys
  | _, _ => none
termination_by a b => sizeOf a + sizeOf b
decreasing_by
  all_goals simp_wf
  all_goals omega

def pyLtList : List Value → List Value → Option Bool
  | [], [] => some false
  | [], _ :: _ => some true
  | _ :: _, [] => some false
  | x :: xs, y :: ys => if pyEq x y then pyLtList xs ys else pyLt x y
termination_by xs ys => sizeOf xs + sizeOf ys
decreasing_by
  all_goals simp_wf
  all_goals omega

end

/-- Python hashability of our variant: dict keys may not be lists or dicts. -/
def isHashable : Value → Bool
  | .list _ => false
  | .dict _ => false
  | _ => true

def Value.isList : Value → Bool
  | .list _ => true
  | _ => false

def Value.isStr : Value → Bool
  | .str _ => true
  | _ => false

def Value.isInt : Value → Bool
  | .int _ => true
  | _ => false

/-- `InMemoryCollection._matches` path walk: `value = doc`, then per segment
`value = value.get(part)` if `value` is a dict, else `None` and break.
A missing key gives `None` (our `.null`). -/
def pyResolve : Value → List String → Value
  | v, [] => v
  | .dict fs, p :: rest => pyResolve ((dictGet fs p).getD .null) rest
  | _, _ :: _ => .null

/-- Python `x in container`; `none` is a `TypeError` (non-container, or an
unhashable probe against a dict). For strings it is the substring test. -/
def pyContains (container : Value) (x : Value) : Option Bool :=
  match container with
  | .list es => some (es.any (fun e => pyEq e x))
  | .str s =>
    match x with
    | .str t => some (subMatch t.data s.data)
    | _ => none
  | .dict fs =>
    if isHashable x then some (fs.any (fun kv => pyEq (.str kv.1) x)) else none
  | _ => none

/-- `any(v in operand for v in value)`: short-circuiting, first error raises. -/
def pyAnyIn : List Value → Value → Option Bool
  | [], _ => some false
  | v :: vs, operand =>
    match pyContains operand v with
    | none => none
    | some true => some true
    | some false => pyAnyIn vs operand

/-- The operator loop of `_matches` for one dict-valued condition: `$in`,
`$gte`, `$lte` in the source's order; unknown operators are skipped.
`some false` is the early `return False`; `none` is a raised `TypeError`. -/
def evalOps (value : Value) : List (String × Value) → Option Bool
  | [] => some true
  | (op, operand) :: rest =>
    if op == "$in" then
      match value with
      | .list vs =>
        match pyAnyIn vs operand with
        | none => none
        | some true => evalOps value rest
        | some false => some false
      | v =>
        match pyContains operand v with
        | none => none
        | some true => evalOps value rest
        | some false => some false
    else if op == "$gte" then
      match value with
      | .null => some false
      | v =>
        match pyLt v operand with
        | none => none
        | some true => some false
        | some false => evalOps value rest
    else if op == "$lte" then
      match value with
      | .null => some false
      | v =>
        match pyLt operand v with
        | none => none
        | some true => some false
        | some false => evalOps value rest
    else evalOps value rest

/-- `InMemoryCollection._matches(doc, query)`: fields are ANDed; a dict
condition runs the operator loop, any other condition is a `==` literal test.
`some false` is an early `return False`; `none` is a raised `TypeError`. -/
def pyMatches (doc : Fields) : Fields → Option Bool
  | [] => some true
  | (key, cond) :: rest =>
    let value := pyResolve (.dict doc) (splitDot key)
    match cond with
    | .dict ops =>
      match evalOps value ops with
      | none => none
      | some false => some false
      | some true => pyMatches doc rest
    | lit => if pyEq value lit then pyMatches doc rest else some false

/-- Python dict probe `self._docs.get(key)`: first entry whose stored key
compares `==` to the probe. -/
def pyDictGet {β : Type} (s : List (Value × β)) (k : Value) : Option β :=
  match s with
  | [] => none
  | (k0, v) :: rest => if pyEq k0 k then some v else pyDictGet rest k

/-- Python dict write `d[k] = v`: replace the value at an `==`-equal key in
place (keeping the original key object), else append. -/
def pyDictInsert {β : Type} (s : List (Value × β)) (k : Value) (v : β) :
    List (Value × β) :=
  match s with
  | [] => [(k, v)]
  | (k0, w) :: rest =>
    if pyEq k0 k then (k0, v) :: rest else (k0, w) :: pyDictInsert rest k v

/-- `count_documents(filter)`: empty filter counts everything; otherwise
each document is matched (an error in any match raises). -/
def countDocuments (s : DbState) (f : Fields) : Option Nat :=
  if f.isEmpty then some s.length
  else (s.mapM (fun kd => pyMatches kd.2 f)).map (fun bs => bs.count true)

/-- `insert_one(document)`: deep-copies (pure here) and stores under
`document.get("_id")` — `None` when the field is absent; an unhashable `_id`
raises before anything is stored. -/
def insertOne (s : DbState) (d : Fields) : Option DbState :=
  let k := (dictGet d "_id").getD .null
  if isHashable k then some (pyDictInsert s k d) else none

/-- `list.remove(value)`: drop the first `==`-equal element. -/
def removeFirst : List Value → Value → List Value
  | [], _ => []
  | e :: es, v => if pyEq e v then es else e :: removeFirst es v

/-- One `(field, value)` step of the update loop in `update_one`, for a given
operator. The `Bool` is success; `false` models a raised exception, with the
document as mutated so far. Branch order follows the source: `$push`, `$pull`,
`$set`, anything else a silent no-op.
  * `$push`: `doc.setdefault(field, []).append(value)` — appending to a
    non-list raises `AttributeError` without mutating.
  * `$pull`: `lst = doc.get(field, []); if value in lst: lst.remove(value)` —
    `in` on a non-container raises; `remove` on a non-list raises.
  * `$set`: plain assignment. -/
def applyField (doc : Fields) (op field : String) (v : Value) : Fields × Bool :=
  if op == "$push" then
    match dictGet doc field with
    | none => (dictSet doc field (.list [v]), true)
    | some (.list l) => (dictSet doc field (.list (l ++ [v])), true)
    | some _ => (doc, false)
  else if op == "$pull" then
    match pyContains ((dictGet doc field).getD (.list [])) v with
    | none => (doc, false)
    | some false => (doc, true)
    | some true =>
      match (dictGet doc field).getD (.list []) with
      | .list l => (dictSet doc field (.list (removeFirst l v)), true)
      | _ => (doc, false)
  else if op == "$set" then (dictSet doc field v, true)
  else (doc, true)

/-- The inner `for field, value in fields.items()` loop; stops at the first
raised exception. -/
def applyFields (op : String) : Fields → List (String × Value) → Fields × Bool
  | doc, [] => (doc, true)
  | doc, (f, v) :: rest =>
    if (applyField doc op f v).2 then applyFields op (applyField doc op f v).1 rest
    else ((applyField doc op f v).1, false)

/-- The outer `for op, fields in update.items()` loop of `update_one`. -/
def applyUpdate : Fields → Update → Fields × Bool
  | doc, [] => (doc, true)
  | doc, (op, fs) :: rest =>
    if (applyFields op doc fs).2 then applyUpdate (applyFields op doc fs).1 rest
    else ((applyFields op doc fs).1, false)

/-- `update_one`'s direct-`_id` branch: the stored document at the first
`==`-equal key is mutated in place; `some 0` when no key matches. -/
def updateById (u : Update) (v : Value) : DbState → DbState × Option Nat
  | [] => ([], some 0)
  | (k, d) :: rest =>
    if pyEq k v then
      ((k, (applyUpdate d u).1) :: rest,
       if (applyUpdate d u).2 then some 1 else none)
    else
      ((k, d) :: (updateById u v rest).1, (updateById u v rest).2)

/-- `update_one`'s scan branch: first matching document (in insertion order)
is mutated in place; a match error raises before any mutation. -/
def updateByScan (f : Fields) (u : Update) : DbState → DbState × Option Nat
  | [] => ([], some 0)
  | (k, d) :: rest =>
    match pyMatches d f with
    | none => ((k, d) :: rest, none)
    | some true =>
      ((k, (applyUpdate d u).1) :: rest,
       if (applyUpdate d u).2 then some 1 else none)
    | some false =>
      ((k, d) :: (updateByScan f u rest).1, (updateByScan f u rest).2)

/-- `_id = filter.get("_id")` in `update_one`: `None` both when the key is
absent and when it maps to `None`. -/
def idProbe (f : Fields) : Value := (dictGet f "_id").getD .null

/-- `update_one(filter, update)`: a non-`None` `_id` selects by direct dict
lookup (every other condition ignored), else a full scan picks the first
`_matches` hit. The result pairs the state after the call (Python mutates in
place, so it changes even when a later operator raises) with
`modified_count` — `none` when the call raises: an unhashable `_id` probe is
a `TypeError` before any lookup. -/
def update_one (s : DbState) (f : Fields) (u : Update) : DbState × Option Nat :=
  match idProbe f with
  | .null => updateByScan f u s
  | idv => if isHashable idv then updateById u idv s else (s, none)

/-- The `$unwind` value walk: `value = value.get(p, []) if isinstance(value,
dict) else []`, over all segments with no break — a missing key or non-dict
step yields `[]` and stays `[]`. -/
def unwindResolve : Value → List String → Value
  | v, [] => v
  | .dict fs, p :: rest => unwindResolve ((dictGet fs p).getD (.list [])) rest
  | _, _ :: rest => unwindResolve (.list []) rest

/-- The nested write in `$unwind`: `obj = d; for p in parts[:-1]: obj = obj[p];
obj[parts[-1]] = v`. A missing intermediate key (`KeyError`) or a non-dict
intermediate (`TypeError`) raises. `parts` is never empty (`split` output). -/
def setPath : Fields → List String → Value → Option Fields
  | fs, [p], v => some (dictSet fs p v)
  | fs, p :: rest, v =>
    match dictGet fs p with
    | some (.dict inner) => (setPath inner rest v).map (fun r => dictSet fs p (.dict r))
    | some _ => none
    | none => none
  | _, [], _ => none

/-- `$unwind` on one input document: a list value fans out into one deep copy
per element with the path replaced; any other value passes the document
through unchanged. (A missing path resolved to `[]` therefore emits nothing.) -/
def unwindDoc (parts : List String) (doc : Fields) : Option (List Fields) :=
  match unwindResolve (.dict doc) parts with
  | .list vs => vs.mapM (fun v => setPath doc parts v)
  | _ => some [doc]

def unwindStage (parts : List String) (docs : List Fields) : Option (List Fields) :=
  (docs.mapM (unwindDoc parts)).map List.flatten

/-- The `$group` grouping-key walk: `val = val.get(p) if isinstance(val, dict)
else None`, over all segments with no break. -/
def groupResolve : Value → List String → Value
  | v, [] => v
  | .dict fs, p :: rest => groupResolve ((dictGet fs p).getD .null) rest
  | _, _ :: rest => groupResolve .null rest

/-- `$group({_id: expr})`: a `$`-prefixed string expression is a field path,
anything else a constant. `groups[val] = {"_id": val}` keyed by the resolved
value (first-occurrence order, an unhashable key raises), then the group
documents in that order. -/
def groupStage (idExpr : Value) (docs : List Fields) : Option (List Fields) :=
  let keyPath : Option (List String) :=
    match idExpr with
    | .str s => if startsDollar s then some (splitDot (dropDollar s)) else none
    | _ => none
  (docs.foldlM
    (fun (groups : List (Value × Fields)) doc =>
      let val :=
        match keyPath with
        | some path => groupResolve (.dict doc) path
        | none => idExpr
      if isHashable val then some (pyDictInsert groups val [("_id", val)])
      else none)
    ([] : List (Value × Fields))).map (fun groups => groups.map (·.2))

/-- `$sort`'s per-document key: `d.get(key, "")` — the default is always the
empty string, whatever the other documents hold. -/
def sortKeyOf (d : Fields) (k : String) : Value := (dictGet d k).getD (.str "")

/-- `list.sort` raises a `TypeError` when it compares an incomparable pair; a
sort succeeds iff the keys are mutually comparable (for this program's value
shapes the two coincide: any two of its sort keys from different classes are
incomparable and adjacent pairs are always compared). -/
def allComparable (ks : List Value) : Bool :=
  ks.all (fun a => ks.all (fun b => (pyLt a b).isSome))

/-- Stable insertion into a sorted list: `x` goes before the first `y` it
compares `le` to. -/
def insertSorted {α : Type} (le : α → α → Bool) (x : α) : List α → List α
  | [] => [x]
  | y :: ys => if le x y then x :: y :: ys else y :: insertSorted le x ys

/-- A stable sort (insertion sort). `list.sort` is Timsort; both are stable,
and stable sorts agree on every total preorder comparator, which is the only
regime in which Python's comparison-based sort has a defined order. -/
def isort {α : Type} (le : α → α → Bool) : List α → List α
  | [] => []
  | x :: xs => insertSorted le x (isort le xs)

/-- `docs.sort(key=lambda d: d.get(k, ""), reverse=(direction == -1))`: a
stable ascending (or, for `reverse`, descending) sort on the resolved key;
`none` when some compared pair of keys raises. `le` keeps ties (both
directions) in encounter order, matching Python's stability, including for
`reverse=True` (Python does not reorder equal elements). -/
def passLe (k : String) (rev : Bool) (a b : Fields) : Bool :=
  if rev then !((pyLt (sortKeyOf a k) (sortKeyOf b k)).getD false)
  else !((pyLt (sortKeyOf b k) (sortKeyOf a k)).getD false)

def sortOnePass (k : String) (rev : Bool) (docs : List Fields) :
    Option (List Fields) :=
  if allComparable (docs.map (sortKeyOf · k)) then
    some (isort (passLe k rev) docs)
  else none

/-- `for key, direction in reversed(sort_spec.items()): docs.sort(...)`:
the head key's pass runs last, exactly the reversed iteration. -/
def sortPasses : List (String × Value) → List Fields → Option (List Fields)
  | [], docs => some docs
  | (k, dir) :: rest, docs =>
    (sortPasses rest docs).bind (sortOnePass k (pyEq dir (.int (-1))))

/-- One pipeline stage of `aggregate`: `$unwind` / `$group` / `$sort` checked
in the source's `if`/`elif` order by key membership; a stage carrying none of
the three keys falls through with the documents unchanged. Shape errors
(`$unwind` argument not a string, `$group` value without a dict `_id` slot,
`$sort` value not a dict) raise. -/
def aggStep (docs : List Fields) (stage : Fields) : Option (List Fields) :=
  if (dictGet stage "$unwind").isSome then
    match dictGet stage "$unwind" with
    | some (.str s) => unwindStage (splitDot (dropDollar s)) docs
    | _ => none
  else if (dictGet stage "$group").isSome then
    match dictGet stage "$group" with
    | some (.dict gs) =>
      match dictGet gs "_id" with
      | some e => groupStage e docs
      | none => none
    | _ => none
  else if (dictGet stage "$sort").isSome then
    match dictGet stage "$sort" with
    | some (.dict ss) => sortPasses ss docs
    | _ => none
  else some docs

/-- `aggregate(pipeline)`: deep-copies all stored documents (pure here) and
runs the stages left to right. -/
def aggregate (s : DbState) (pipeline : List Fields) : Option (List Fields) :=
  pipeline.foldlM aggStep (s.map (·.2))

/-- One entry of `initial_activities` (name separate, details verbatim). -/
def activityDoc (desc sched : String) (days : List String) (st et : String)
    (maxp : Int) (parts : List String) : Fields :=
  [("description", .str desc),
   ("schedule", .str sched),
   ("schedule_details", .dict
     [("days", .list (days.map Value.str)),
      ("start_time", .str st),
      ("end_time", .str et)]),
   ("max_participants", .int maxp),
   ("participants", .list (parts.map Value.str))]

/-- `initial_activities`, in the module's literal order. -/
def initial_activities : List (String × Fields) :=
  [("Chess Club", activityDoc
      "Learn strategies and compete in chess tournaments"
      "Mondays and Fridays, 3:15 PM - 4:45 PM"
      ["Monday", "Friday"] "15:15" "16:45" 12
      ["michael@mergington.edu", "daniel@mergington.edu"]),
   ("Programming Class", activityDoc
      "Learn programming fundamentals and build software projects"
      "Tuesdays and Thursdays, 7:00 AM - 8:00 AM"
      ["Tuesday", "Thursday"] "07:00" "08:00" 20
      ["emma@mergington.edu", "sophia@mergington.edu"]),
   ("Morning Fitness", activityDoc
      "Early morning physical training and exercises"
      "Mondays, Wednesdays, Fridays, 6:30 AM - 7:45 AM"
      ["Monday", "Wednesday", "Friday"] "06:30" "07:45" 30
      ["john@mergington.edu", "olivia@mergington.edu"]),
   ("Soccer Team", activityDoc
      "Join the school soccer team and compete in matches"
      "Tuesdays and Thursdays, 3:30 PM - 5:30 PM"
      ["Tuesday", "Thursday"] "15:30" "17:30" 22
      ["liam@mergington.edu", "noah@mergington.edu"]),
   ("Basketball Team", activityDoc
      "Practice and compete in basketball tournaments"
      "Wednesdays and Fridays, 3:15 PM - 5:00 PM"
      ["Wednesday", "Friday"] "15:15" "17:00" 15
      ["ava@mergington.edu", "mia@mergington.edu"]),
   ("Art Club", activityDoc
      "Explore various art techniques and create masterpieces"
      "Thursdays, 3:15 PM - 5:00 PM"
      ["Thursday"] "15:15" "17:00" 15
      ["amelia@mergington.edu", "harper@mergington.edu"]),
   ("Drama Club", activityDoc
      "Act, direct, and produce plays and performances"
      "Mondays and Wednesdays, 3:30 PM - 5:30 PM"
      ["Monday", "Wednesday"] "15:30" "17:30" 20
      ["ella@mergington.edu", "scarlett@mergington.edu"]),
   ("Math Club", activityDoc
      "Solve challenging problems and prepare for math competitions"
      "Tuesdays, 7:15 AM - 8:00 AM"
      ["Tuesday"] "07:15" "08:00" 10
      ["james@mergington.edu", "benjamin@mergington.edu"]),
   ("Debate Team", activityDoc
      "Develop public speaking and argumentation skills"
      "Fridays, 3:30 PM - 5:30 PM"
      ["Friday"] "15:30" "17:30" 12
      ["charlotte@mergington.edu", "amelia@mergington.edu"]),
   ("Weekend Robotics Workshop", activityDoc
      "Build and program robots in our state-of-the-art workshop"
      "Saturdays, 10:00 AM - 2:00 PM"
      ["Saturday"] "10:00" "14:00" 15
      ["ethan@mergington.edu", "oliver@mergington.edu"]),
   ("Science Olympiad", activityDoc
      "Weekend science competition preparation for regional and state events"
      "Saturdays, 1:00 PM - 4:00 PM"
      ["Saturday"] "13:00" "16:00" 18
      ["isabella@mergington.edu", "lucas@mergington.edu"]),
   ("Sunday Chess Tournament", activityDoc
      "Weekly tournament for serious chess players with rankings"
      "Sundays, 2:00 PM - 5:00 PM"
      ["Sunday"] "14:00" "17:00" 16
      ["william@mergington.edu", "jacob@mergington.edu"])]

/-- `initial_teachers`. `hash_password` (Argon2, salted and so
non-deterministic) is an external capability: the hash function is a
parameter, applied to the module's literal plaintexts. -/
def initial_teachers (hash : String → String) : List Fields :=
  [[("username", .str "mrodriguez"),
    ("display_name", .str "Ms. Rodriguez"),
    ("password", .str (hash "art123")),
    ("role", .str "teacher")],
   [("username", .str "mchen"),
    ("display_name", .str "Mr. Chen"),
    ("password", .str (hash "chess456")),
    ("role", .str "teacher")],
   [("username", .str "principal"),
    ("display_name", .str "Principal Martinez"),
    ("password", .str (hash "admin789")),
    ("role", .str "admin")]]

/-- The two module-level collections (`activities_collection`,
`teachers_collection`), as a pair of states. -/
abbrev Store := DbState × DbState

def emptyStore : Store := ([], [])

/-- `init_database()`: seed each collection from its static data, but only
when its `count_documents({})` is zero. `{"_id": name, **details}` and
`{"_id": teacher["username"], **teacher}` put `_id` first (the concrete
seed documents all carry the `username` key the source indexes). -/
def init_database (hash : String → String) (st : Store) : Option Store := do
  let c1 ← countDocuments st.1 []
  let acts ←
    if c1 == 0 then
      (initial_activities.map (fun p => ("_id", Value.str p.1) :: p.2)).foldlM
        insertOne st.1
    else pure st.1
  let c2 ← countDocuments st.2 []
  let teach ←
    if c2 == 0 then
      ((initial_teachers hash).map
        (fun t => ("_id", (dictGet t "username").getD .null) :: t)).foldlM
        insertOne st.2
    else pure st.2
  pure (acts, teach)

/-! ### Claim-side notions -/

/-- Update expressions whose `$set` field maps never touch `_id` (the other
operators cannot replace an existing scalar `_id`; see the invariant proof). -/
def noIdSet (u : Update) : Prop :=
  ∀ e ∈ u, e.1 = "$set" → ∀ q ∈ e.2, q.1 ≠ "_id"

/-- Collection states reachable from the empty collection by `insert_one` of
documents carrying an `_id` field and by `update_one` calls whose update
expression satisfies `P`. The state after a raising `update_one` is still the
call's state component: Python mutates the stored document in place before
the exception propagates. -/
inductive Reachable (P : Update → Prop) : DbState → Prop where
  | empty : Reachable P []
  | insert {s d s'} : Reachable P s → (dictGet d "_id").isSome = true →
      insertOne s d = some s' → Reachable P s'
  | update {s} (f : Fields) (u : Update) : Reachable P s → P u →
      Reachable P (update_one s f u).1

/-- `update_one`'s selection comes up empty without raising: either the
filter carries no (non-`None`) `_id` and no stored document matches it, or it
carries a hashable non-`None` `_id` under which nothing is stored. -/
def selFails (s : DbState) (f : Fields) : Prop :=
  (idProbe f = .null ∧ ∀ p ∈ s, pyMatches p.2 f = some false) ∨
  (idProbe f ≠ .null ∧ isHashable (idProbe f) = true ∧
    pyDictGet s (idProbe f) = none)

/-- All of a document's sort keys for a given `$sort` spec resolve to ints —
the regime of the claim's example, where Python's comparisons are a total
order. -/
def intKeyed (spec : Fields) (d : Fields) : Prop :=
  ∀ p ∈ spec, (sortKeyOf d p.1).isInt = true

/-- Strict "before" on one sort key, in the key's declared direction. -/
def keyLt (k : String) (rev : Bool) (a b : Fields) : Prop :=
  if rev then pyLt (sortKeyOf b k) (sortKeyOf a k) = some true
  else pyLt (sortKeyOf a k) (sortKeyOf b k) = some true

/-- Tie on one sort key (Python `==` of the resolved keys). -/
def keyEquiv (k : String) (a b : Fields) : Prop :=
  pyEq (sortKeyOf a k) (sortKeyOf b k) = true

/-- The multi-key order a `$sort` spec describes, spelled from the spec's
words: earlier-declared keys dominate, later keys break ties. -/
def lexLe : Fields → Fields → Fields → Prop
  | [], _, _ => True
  | (k, dir) :: rest, a, b =>
    keyLt k (pyEq dir (.int (-1))) a b ∨ (keyEquiv k a b ∧ lexLe rest a b)

/-! ### Helper lemmas -/

theorem pyAnyIn_list (vs O : List Value) :
    pyAnyIn vs (.list O) = some (vs.any (fun v => O.any (fun e => pyEq e v))) := by
  induction vs with
  | nil => rfl
  | cons v vs ih =>
    unfold pyAnyIn
    show (match pyContains (.list O) v with
      | none => none
      | some true => some true
      | some false => pyAnyIn vs (.list O)) = _
    unfold pyContains
    cases h : O.any (fun e => pyEq e v) with
    | true => simp [h]
    | false => simp [h, ih]

theorem evalOps_in_list (value : Value) (O : List Value) :
    evalOps value [("$in", .list O)] =
      some (match value with
            | .list vs => vs.any (fun v => O.any (fun e => pyEq e v))
            | v => O.any (fun e => pyEq e v)) := by
  cases value with
  | list vs =>
    cases h : vs.any (fun v => O.any (fun e => pyEq e v)) <;>
      simp [evalOps, pyAnyIn_list, h]
  | null =>
    cases h : O.any (fun e => pyEq e Value.null) <;>
      simp [evalOps, pyContains, h]
  | bool b =>
    cases h : O.any (fun e => pyEq e (Value.bool b)) <;>
      simp [evalOps, pyContains, h]
  | int n =>
    cases h : O.any (fun e => pyEq e (Value.int n)) <;>
      simp [evalOps, pyContains, h]
  | str s =>
    cases h : O.any (fun e => pyEq e (Value.str s)) <;>
      simp [evalOps, pyContains, h]
  | dict fs =>
    cases h : O.any (fun e => pyEq e (Value.dict fs)) <;>
      simp [evalOps, pyContains, h]

/-! ### C7 — `$in` semantics -/

/-- C7: for every document and condition `{path: {$in: O}}` with list operand
`O`, a list resolved at `path` matches iff at least one of its elements is a
member of `O`; any other resolved value (including the absent-as-`None` case)
matches iff it is itself a member of `O`. In particular `tags=["a","b"]`
matches `{tags:{$in:["b","c"]}}` and not `{tags:{$in:["x","y"]}}`. -/
theorem c7_in_membership :
    (∀ (doc : Fields) (path : String) (O : List Value),
      pyMatches doc [(path, .dict [("$in", .list O)])] =
        some (match pyResolve (.dict doc) (splitDot path) with
              | .list vs => vs.any (fun v => O.any (fun e => pyEq e v))
              | v => O.any (fun e => pyEq e v))) ∧
    pyMatches [("_id", .str "x"), ("tags", .list [.str "a", .str "b"])]
      [("tags", .dict [("$in", .list [.str "b", .str "c"])])] = some true ∧
    pyMatches [("_id", .str "x"), ("tags", .list [.str "a", .str "b"])]
      [("tags", .dict [("$in", .list [.str "x", .str "y"])])] = some false := by
  refine ⟨fun doc path O => ?_, ?_, ?_⟩
  · show (match evalOps (pyResolve (.dict doc) (splitDot path))
        [("$in", Value.list O)] with
      | none => (none : Option Bool)
      | some false => some false
      | some true => pyMatches doc []) = _
    rw [evalOps_in_list]
    cases hres : pyResolve (.dict doc) (splitDot path) <;> simp [hres] <;>
      (split <;> simp_all [pyMatches, List.any_eq_true])
  · simp [pyMatches, pyResolve, splitDot, splitDotAux, dictGet, evalOps_in_list,
      pyEq]
  · simp [pyMatches, pyResolve, splitDot, splitDotAux, dictGet, evalOps_in_list,
      pyEq]

/-! ### C5 — unknown pipeline stage -/

/-- C5 counterexample: a pipeline with the unsupported stage `{$limit: 5}`
does not signal any error — `aggregate` silently passes the stored documents
through that stage unchanged. -/
theorem c5_unknown_stage_cex :
    aggregate [(.str "x", [("_id", .str "x")])] [[("$limit", .int 5)]] =
      some [[("_id", .str "x")]] := rfl

/-- C5 amended: a stage carrying none of the keys `$unwind`, `$group`,
`$sort` is silently ignored — the documents pass through unchanged (the
"ignore silently" branch of the spec's §7 alternative, not a raised
configuration error). -/
theorem c5_unknown_stage_passthrough (docs : List Fields) (stage : Fields)
    (h1 : dictGet stage "$unwind" = none) (h2 : dictGet stage "$group" = none)
    (h3 : dictGet stage "$sort" = none) :
    aggStep docs stage = some docs := by
  simp [aggStep, h1, h2, h3]

/-- C5 amended, witness at the `$limit` stage. -/
theorem c5_unknown_stage_passthrough_witness :
    aggStep [[("_id", .str "x")]] [("$limit", .int 5)] =
      some [[("_id", .str "x")]] :=
  c5_unknown_stage_passthrough [[("_id", .str "x")]] [("$limit", .int 5)]
    rfl rfl rfl

/-! ### C4 — `$unwind` on non-sequence / absent values -/

/-- C4 counterexample: a document whose `$unwind` path is absent is *dropped*
(the resolver defaults the value to `[]`, which fans out to zero outputs),
not emitted unchanged as the claim states. -/
theorem c4_unwind_absent_cex :
    aggregate [(.str "x", [("_id", .str "x")])] [[("$unwind", .str "$days")]] =
      some [] := rfl

/-- C4 amended: a document whose resolved `$unwind` value is *present* but
not a sequence passes through unchanged, and a sequence value fans out into
one output per element; an absent path however resolves to the empty
sequence, so such a document is dropped rather than passed through. -/
theorem c4_unwind_nonlist_passthrough :
    (∀ (parts : List String) (doc : Fields),
      (unwindResolve (.dict doc) parts).isList = false →
      unwindDoc parts doc = some [doc]) ∧
    (∀ (vs : List Value) (parts : List String) (doc : Fields),
      unwindResolve (.dict doc) parts = .list vs →
      unwindDoc parts doc = vs.mapM (setPath doc parts)) ∧
    (∀ (p : String) (doc : Fields), dictGet doc p = none →
      unwindDoc [p] doc = some []) := by
  refine ⟨fun parts doc h => ?_, fun vs parts doc h => ?_, fun p doc h => ?_⟩
  · unfold unwindDoc
    cases hres : unwindResolve (.dict doc) parts <;> simp_all [Value.isList]
  · unfold unwindDoc
    rw [h]
  · unfold unwindDoc unwindResolve
    rw [h]
    rfl

/-- C4 amended, witness: a non-list value at the path passes through; a
missing path emits nothing. -/
theorem c4_unwind_nonlist_passthrough_witness :
    unwindDoc ["days"] [("days", .int 3)] = some [[("days", .int 3)]] ∧
    unwindDoc ["days"] [("_id", .str "x")] = some [] :=
  ⟨c4_unwind_nonlist_passthrough.1 ["days"] [("days", .int 3)] rfl,
   c4_unwind_nonlist_passthrough.2.2 "days" [("_id", .str "x")] rfl⟩

/-! ### C10 — `insert_one` without `_id` -/

/-- C10: `insert_one` of a document lacking `_id` does not fail: the document
is stored under the key `None`, and a second `_id`-less insert silently
overwrites the first. -/
theorem c10_insert_no_id (s : DbState) (d1 d2 : Fields)
    (h1 : dictGet d1 "_id" = none) (h2 : dictGet d2 "_id" = none) :
    insertOne s d1 = some (pyDictInsert s .null d1) ∧
    (insertOne [] d1).bind (fun s1 => insertOne s1 d2) = some [(.null, d2)] := by
  constructor
  · simp [insertOne, h1, isHashable]
  · simp [insertOne, h1, h2, isHashable, pyDictInsert, pyEq, Option.bind]

/-- C10 witness. -/
theorem c10_insert_no_id_witness :
    insertOne [] [("a", Value.int 1)] =
      some (pyDictInsert [] .null [("a", Value.int 1)]) ∧
    (insertOne [] [("a", Value.int 1)]).bind
      (fun s1 => insertOne s1 [("b", Value.int 2)]) =
      some [(.null, [("b", Value.int 2)])] :=
  c10_insert_no_id [] [("a", Value.int 1)] [("b", Value.int 2)] rfl rfl

/-! ### C8 — idempotent seeding -/

set_option maxHeartbeats 4000000 in
/-- C8: running `init_database` twice from the empty store yields exactly the
store (count and content, for both the activities and the teachers
collection) of running it once: the second run sees non-zero
`count_documents({})` on both collections and seeds nothing. Stated for
every hash function the external credential-hashing capability may be. -/
theorem c8_init_idempotent (hash : String → String) :
    (init_database hash emptyStore).bind (init_database hash) =
      init_database hash emptyStore := by
  simp [init_database, emptyStore, countDocuments, insertOne, pyDictInsert,
    pyEq, isHashable, initial_activities, initial_teachers, activityDoc,
    dictGet, Option.bind]

/-! ### C3 — `$sort` and absent keys -/

theorem insertSorted_perm {α : Type} (le : α → α → Bool) (x : α) :
    ∀ l : List α, (insertSorted le x l).Perm (x :: l)
  | [] => List.Perm.refl _
  | y :: ys => by
    unfold insertSorted
    by_cases h : le x y
    · rw [if_pos h]
    · rw [if_neg h]
      exact ((insertSorted_perm le x ys).cons y).trans (List.Perm.swap x y ys)

theorem isort_perm {α : Type} (le : α → α → Bool) :
    ∀ l : List α, (isort le l).Perm l
  | [] => List.Perm.refl _
  | x :: xs =>
    (insertSorted_perm le x (isort le xs)).trans ((isort_perm le xs).cons x)

theorem isStr_exists {v : Value} (h : v.isStr = true) : ∃ s, v = .str s := by
  cases v <;> simp_all [Value.isStr]

theorem sortPasses_str (spec : Fields) :
    ∀ docs : List Fields,
      (∀ p ∈ spec, ∀ d ∈ docs, (sortKeyOf d p.1).isStr = true) →
      ∃ out, sortPasses spec docs = some out ∧ out.Perm docs := by
  induction spec with
  | nil =>
    intro docs _
    exact ⟨docs, rfl, List.Perm.refl _⟩
  | cons p rest ih =>
    intro docs h
    obtain ⟨out, hout, hperm⟩ :=
      ih docs (fun q hq d hd => h q (List.mem_cons_of_mem _ hq) d hd)
    have hcomp : allComparable (out.map (sortKeyOf · p.1)) = true := by
      rw [allComparable, List.all_eq_true]
      intro a ha
      rw [List.all_eq_true]
      intro b hb
      obtain ⟨da, hda, rfl⟩ := List.mem_map.mp ha
      obtain ⟨db, hdb, rfl⟩ := List.mem_map.mp hb
      obtain ⟨sa, hsa⟩ := isStr_exists
        (h p (List.mem_cons_self _ _) da (hperm.mem_iff.mp hda))
      obtain ⟨sb, hsb⟩ := isStr_exists
        (h p (List.mem_cons_self _ _) db (hperm.mem_iff.mp hdb))
      rw [hsa, hsb]
      simp [pyLt]
    obtain ⟨k, dir⟩ := p
    refine ⟨isort (passLe k (pyEq dir (.int (-1)))) out, ?_, ?_⟩
    · show (sortPasses rest docs).bind (sortOnePass k (pyEq dir (.int (-1)))) = _
      rw [hout]
      show sortOnePass k (pyEq dir (.int (-1))) out = _
      rw [sortOnePass, if_pos hcomp]
    · exact (isort_perm _ out).trans hperm

/-- C3 counterexample: sorting two documents by key `a`, one carrying the
number `1` there and the other lacking the key, raises (the absent key
defaults to the string `""`, which is incomparable with a number) — the
aggregation errors instead of sorting with a type-appropriate default. -/
theorem c3_sort_mixed_raises_cex :
    aggregate
      [(.str "x", [("_id", .str "x"), ("a", .int 1)]),
       (.str "y", [("_id", .str "y")])]
      [[("$sort", .dict [("a", .int 1)])]] = none := by
  simp [aggregate, aggStep, dictGet, sortPasses, sortOnePass, allComparable,
    sortKeyOf, pyLt, Option.bind]

/-- C3 amended: `$sort` never consults the value type — an absent key always
defaults to the empty string `""`. Sorting therefore succeeds whenever every
resolved-or-default key is a string (in particular when absent keys meet
string values), but a document lacking the key next to numeric values raises
a type error rather than sorting with a zero default. -/
theorem c3_sort_default (spec : Fields) (docs : List Fields)
    (h : ∀ p ∈ spec, ∀ d ∈ docs, (sortKeyOf d p.1).isStr = true) :
    (sortPasses spec docs).isSome = true ∧
    ∀ (d : Fields) (k : String), dictGet d k = none → sortKeyOf d k = .str "" := by
  constructor
  · obtain ⟨out, hout, -⟩ := sortPasses_str spec docs h
    rw [hout]
    rfl
  · intro d k hk
    rw [sortKeyOf, hk]
    rfl

/-- C3 amended, witness: an all-string single-key sort (one document lacking
the key) succeeds. -/
theorem c3_sort_default_witness :
    (sortPasses [("a", .int 1)] [[("a", .str "b")], []]).isSome = true ∧
    ∀ (d : Fields) (k : String), dictGet d k = none → sortKeyOf d k = .str "" :=
  c3_sort_default [("a", .int 1)] [[("a", .str "b")], []] (by decide)

/-! ### C1 / C9 — `update_one` selection -/

theorem update_one_eq (s : DbState) (f : Fields) (u : Update) :
    update_one s f u =
      (match idProbe f with
       | .null => updateByScan f u s
       | idv => if isHashable idv then updateById u idv s else (s, none)) := rfl

theorem updateByScan_nomatch (f : Fields) (u : Update) :
    ∀ s : DbState, (∀ p ∈ s, pyMatches p.2 f = some false) →
      updateByScan f u s = (s, some 0)
  | [], _ => rfl
  | (k, d) :: rest, h => by
    unfold updateByScan
    rw [h (k, d) (List.mem_cons_self _ _),
      updateByScan_nomatch f u rest (fun p hp => h p (List.mem_cons_of_mem _ hp))]

theorem updateById_nokey (u : Update) (v : Value) :
    ∀ s : DbState, pyDictGet s v = none → updateById u v s = (s, some 0)
  | [], _ => rfl
  | (k, d) :: rest, h => by
    unfold pyDictGet at h
    cases hp : pyEq k v with
    | true => rw [hp] at h; simp at h
    | false =>
      rw [hp] at h
      simp only [Bool.false_eq_true, if_false] at h
      unfold updateById
      rw [hp]
      simp [updateById_nokey u v rest h]

theorem updateById_found (u : Update) (v : Value) :
    ∀ (s : DbState) (d : Fields), pyDictGet s v = some d →
      (updateById u v s).2 = (if (applyUpdate d u).2 then some 1 else none)
  | [], d, h => by simp [pyDictGet] at h
  | (k, d0) :: rest, d, h => by
    unfold pyDictGet at h
    cases hp : pyEq k v with
    | true =>
      rw [hp] at h
      simp only [if_true] at h
      cases h
      unfold updateById
      rw [hp]
      simp
    | false =>
      rw [hp] at h
      simp only [Bool.false_eq_true, if_false] at h
      unfold updateById
      rw [hp]
      simp [updateById_found u v rest d h]

/-- C1 counterexample: with the single stored document
`{_id: 1, a: 2}`, the filter `{_id: 1, a: 3}` matches *no* stored document
under the Query Matcher, yet `update_one` (selecting by `_id` alone) applies
`{$set: {a: 9}}`, returns modified count 1, and changes the collection. -/
theorem c1_update_nonmatching_cex :
    pyMatches [("_id", Value.int 1), ("a", Value.int 2)]
      [("_id", Value.int 1), ("a", Value.int 3)] = some false ∧
    update_one [(Value.int 1, [("_id", Value.int 1), ("a", Value.int 2)])]
      [("_id", Value.int 1), ("a", Value.int 3)]
      [("$set", [("a", Value.int 9)])] =
      ([(Value.int 1, [("_id", Value.int 1), ("a", Value.int 9)])], some 1) ∧
    ([(Value.int 1, [("_id", Value.int 1), ("a", Value.int 9)])] : DbState) ≠
      [(Value.int 1, [("_id", Value.int 1), ("a", Value.int 2)])] := by
  refine ⟨?_, ?_, ?_⟩
  · simp [pyMatches, pyResolve, splitDot, splitDotAux, dictGet, evalOps, pyEq]
  · simp [update_one, idProbe, dictGet, isHashable, updateById, pyEq,
      applyUpdate, applyFields, applyField, dictSet]
  · intro hcontra
    simp at hcontra

/-- C1 amended: `update_one` returns modified count 0 and leaves every stored
document unchanged exactly when its *selection* comes up empty: when the
filter carries no non-`None` `_id` and no stored document matches the whole
filter, or when it carries a (hashable) non-`None` `_id` under which nothing
is stored. When the filter pairs an `_id` with further conditions, those
conditions are ignored and a document stored under that `_id` is updated even
though nothing matches the whole filter. -/
theorem c1_update_no_selection (s : DbState) (f : Fields) (u : Update)
    (h : selFails s f) : update_one s f u = (s, some 0) := by
  rw [update_one_eq]
  cases h with
  | inl h =>
    obtain ⟨hnull, hall⟩ := h
    rw [hnull]
    exact updateByScan_nomatch f u s hall
  | inr h =>
    obtain ⟨hnn, hh, hnone⟩ := h
    cases hip : idProbe f <;> rw [hip] at hh hnone <;>
      simp_all [isHashable, updateById_nokey u _ s hnone]

/-- C1 amended, witness: a filter without `_id` matching nothing, on a
one-document collection. -/
theorem c1_update_no_selection_witness :
    update_one [(Value.str "x", [("_id", Value.str "x"), ("a", Value.int 1)])]
      [("a", Value.int 5)] [("$set", [("a", Value.int 9)])] =
      ([(Value.str "x", [("_id", Value.str "x"), ("a", Value.int 1)])], some 0) :=
  c1_update_no_selection _ _ _
    (Or.inl ⟨rfl, by
      intro p hp
      simp only [List.mem_singleton] at hp
      subst hp
      simp [pyMatches, pyResolve, splitDot, splitDotAux, dictGet, evalOps, pyEq]⟩)

/-- C9: when the filter carries a (hashable) non-`None` `_id`, `update_one`
selects solely by direct `_id` lookup — its behaviour coincides with the pure
lookup walk, whatever the other filter conditions say — and whenever a
document is stored under that `_id` and the update operators apply cleanly,
the call returns modified count 1. -/
theorem c9_update_id_lookup (s : DbState) (f : Fields) (u : Update) (v : Value)
    (d : Fields) (hf : idProbe f = v) (hv : v ≠ .null)
    (hh : isHashable v = true) (hd : pyDictGet s v = some d) :
    update_one s f u = updateById u v s ∧
    ((applyUpdate d u).2 = true → (update_one s f u).2 = some 1) := by
  have h1 : update_one s f u = updateById u v s := by
    rw [update_one_eq, hf]
    cases v <;> simp_all [isHashable]
  refine ⟨h1, fun hok => ?_⟩
  rw [h1, updateById_found u v s d hd, hok]
  rfl

/-- C9 witness: the filter `{_id: "t", zzz: 9}` updates the document stored
under `"t"` although the `zzz` condition matches nothing. -/
theorem c9_update_id_lookup_witness :
    update_one [(Value.str "t", [("_id", Value.str "t"), ("a", Value.int 1)])]
      [("_id", Value.str "t"), ("zzz", Value.int 9)]
      [("$set", [("a", Value.int 5)])] =
      updateById [("$set", [("a", Value.int 5)])] (Value.str "t")
        [(Value.str "t", [("_id", Value.str "t"), ("a", Value.int 1)])] ∧
    ((applyUpdate [("_id", Value.str "t"), ("a", Value.int 1)]
        [("$set", [("a", Value.int 5)])]).2 = true →
      (update_one [(Value.str "t", [("_id", Value.str "t"), ("a", Value.int 1)])]
        [("_id", Value.str "t"), ("zzz", Value.int 9)]
        [("$set", [("a", Value.int 5)])]).2 = some 1) :=
  c9_update_id_lookup _ _ _ (Value.str "t") _ rfl (by simp) rfl
    (by simp [pyDictGet, pyEq])

/-! ### C2 — the `_id`-equals-key invariant -/

theorem pyFieldMem_of_mem {k : String} {v : Value} (hrefl : pyEq v v = true) :
    ∀ {ys : List (String × Value)}, (k, v) ∈ ys → pyFieldMem k v ys = true := by
  intro ys hmem
  induction ys with
  | nil => simp at hmem
  | cons p rest ih =>
    obtain ⟨k2, w⟩ := p
    unfold pyFieldMem
    rcases List.mem_cons.mp hmem with heq | htail
    · cases heq
      simp [hrefl]
    · simp [ih htail]

theorem pyEqFields_self :
    ∀ {xs ys : List (String × Value)}, (∀ p ∈ xs, pyEq p.2 p.2 = true) →
      (∀ p ∈ xs, p ∈ ys) → pyEqFields xs ys = true := by
  intro xs
  induction xs with
  | nil => intro ys _ _; simp [pyEqFields]
  | cons p rest ih =>
    intro ys hrefl hsub
    obtain ⟨k, v⟩ := p
    unfold pyEqFields
    rw [pyFieldMem_of_mem (hrefl (k, v) (List.mem_cons_self _ _))
        (hsub (k, v) (List.mem_cons_self _ _)),
      ih (fun q hq => hrefl q (List.mem_cons_of_mem _ hq))
        (fun q hq => hsub q (List.mem_cons_of_mem _ hq))]
    rfl

theorem pyEqList_self :
    ∀ {xs : List Value}, (∀ x ∈ xs, pyEq x x = true) → pyEqList xs xs = true := by
  intro xs
  induction xs with
  | nil => intro _; simp [pyEqList]
  | cons a as ih =>
    intro h
    unfold pyEqList
    rw [h a (List.mem_cons_self _ _),
      ih (fun x hx => h x (List.mem_cons_of_mem _ hx))]
    rfl

/-- Python `==` is reflexive on our values. -/
theorem pyEq_refl (v : Value) : pyEq v v = true := by
  have main : ∀ n : Nat, ∀ v : Value, sizeOf v ≤ n → pyEq v v = true := by
    intro n
    induction n with
    | zero =>
      intro v h
      exfalso
      cases v <;> simp at h
    | succ n ih =>
      intro v hv
      cases v with
      | null => simp [pyEq]
      | bool b => simp [pyEq]
      | int m => simp [pyEq]
      | str s => simp [pyEq]
      | list xs =>
        have hx : ∀ x ∈ xs, pyEq x x = true := by
          intro x hxm
          apply ih
          have h1 := List.sizeOf_lt_of_mem hxm
          have h2 : sizeOf (Value.list xs) = 1 + sizeOf xs := by simp
          omega
        simp [pyEq, pyEqList_self hx]
      | dict fs =>
        have hx : ∀ p ∈ fs, pyEq p.2 p.2 = true := by
          intro p hpm
          apply ih
          have h1 := List.sizeOf_lt_of_mem hpm
          obtain ⟨k, w⟩ := p
          have h2 : sizeOf (Value.dict fs) = 1 + sizeOf fs := by simp
          have h3 : sizeOf (k, w) = 1 + sizeOf k + sizeOf w := by simp
          simp only at h1 ⊢
          omega
        simp [pyEq, pyEqFields_self hx (fun p hp => hp)]
  exact main (sizeOf v) v (le_refl _)

/-- Python `==` relates hashable values only to hashable values. -/
theorem pyEq_hashable {a b : Value} (ha : isHashable a = true)
    (h : pyEq a b = true) : isHashable b = true := by
  cases a <;> cases b <;> simp_all [pyEq, isHashable]

theorem strBeq_symm_false {a b : String} (h : (a == b) = false) :
    (b == a) = false := by
  cases hba : b == a with
  | false => rfl
  | true =>
    have hab : b = a := eq_of_beq hba
    subst hab
    simp at h

theorem dictGet_dictSet_ne (f k : String) (v : Value) (h : (k == f) = false) :
    ∀ fs : Fields, dictGet (dictSet fs f v) k = dictGet fs k
  | [] => by simp [dictSet, dictGet, h]
  | (k2, w) :: rest => by
    unfold dictSet
    cases hf : (f == k2) with
    | true =>
      have : f = k2 := eq_of_beq hf
      subst this
      simp [dictGet, h]
    | false =>
      cases hk : (k == k2) <;>
        simp [dictGet, hk, dictGet_dictSet_ne f k v h rest]

/-- One update-loop step never disturbs an existing hashable `_id` value:
`$set` by the side condition, `$push`/`$pull` because a scalar `_id` makes
them raise (or no-op) before touching it. -/
theorem applyField_id {doc : Fields} {op f : String} {v w : Value}
    (hid : dictGet doc "_id" = some w) (hw : isHashable w = true)
    (hne : op = "$set" → (f == "_id") = false) :
    dictGet (applyField doc op f v).1 "_id" = some w := by
  unfold applyField
  by_cases hpush : (op == "$push") = true
  · rw [if_pos hpush]
    by_cases hf : (f == "_id") = true
    · have : f = "_id" := eq_of_beq hf
      subst this
      rw [hid]
      cases w <;> simp_all [isHashable]
    · have hf' : ("_id" == f) = false :=
        strBeq_symm_false (Bool.not_eq_true _ ▸ hf)
      cases hget : dictGet doc f with
      | none => simpa [hget, dictGet_dictSet_ne f "_id" _ hf' doc] using hid
      | some lv =>
        cases lv <;>
          simpa [hget, dictGet_dictSet_ne f "_id" _ hf' doc] using hid
  · rw [if_neg hpush]
    by_cases hpull : (op == "$pull") = true
    · rw [if_pos hpull]
      by_cases hf : (f == "_id") = true
      · have : f = "_id" := eq_of_beq hf
        subst this
        rw [hid]
        simp only [Option.getD_some]
        cases hc : pyContains w v with
        | none => simpa [hc] using hid
        | some b =>
          cases b with
          | false => simpa [hc] using hid
          | true => cases w <;> simp_all [isHashable]
      · have hf' : ("_id" == f) = false :=
          strBeq_symm_false (Bool.not_eq_true _ ▸ hf)
        generalize (dictGet doc f).getD (Value.list []) = lst
        cases hc : pyContains lst v with
        | none => simpa [hc] using hid
        | some b =>
          cases b with
          | false => simpa [hc] using hid
          | true =>
            cases lst <;>
              simpa [hc, dictGet_dictSet_ne f "_id" _ hf' doc] using hid
    · rw [if_neg hpull]
      by_cases hset : (op == "$set") = true
      · rw [if_pos hset]
        have hf : (f == "_id") = false := hne (eq_of_beq hset)
        have hf' : ("_id" == f) = false := strBeq_symm_false hf
        simpa [dictGet_dictSet_ne f "_id" _ hf' doc] using hid
      · rw [if_neg hset]
        exact hid

theorem applyFields_id {op : String} :
    ∀ {doc : Fields} (fs : List (String × Value)) {w : Value},
      dictGet doc "_id" = some w → isHashable w = true →
      (op = "$set" → ∀ q ∈ fs, (q.1 == "_id") = false) →
      dictGet (applyFields op doc fs).1 "_id" = some w := by
  intro doc fs
  induction fs generalizing doc with
  | nil => intro w hid _ _; exact hid
  | cons q rest ih =>
    intro w hid hw hne
    obtain ⟨f, v⟩ := q
    have hstep : dictGet (applyField doc op f v).1 "_id" = some w :=
      applyField_id hid hw (fun hset => hne hset (f, v) (List.mem_cons_self _ _))
    unfold applyFields
    cases hok : (applyField doc op f v).2 with
    | true =>
      rw [if_pos rfl]
      exact ih hstep hw (fun hset q hq => hne hset q (List.mem_cons_of_mem _ hq))
    | false =>
      rw [if_neg (by simp)]
      exact hstep

/-- A whole update expression whose `$set` maps avoid `_id` leaves an
existing hashable `_id` untouched, raising or not. -/
theorem applyUpdate_id :
    ∀ {doc : Fields} (u : Update) {w : Value},
      dictGet doc "_id" = some w → isHashable w = true → noIdSet u →
      dictGet (applyUpdate doc u).1 "_id" = some w := by
  intro doc u
  induction u generalizing doc with
  | nil => intro w hid _ _; exact hid
  | cons e rest ih =>
    intro w hid hw hu
    obtain ⟨op, fs⟩ := e
    have hstep : dictGet (applyFields op doc fs).1 "_id" = some w :=
      applyFields_id fs hid hw (fun hset q hq => by
        have := hu (op, fs) (List.mem_cons_self _ _) hset q hq
        cases hb : (q.1 == "_id") with
        | false => rfl
        | true => exact absurd (eq_of_beq hb) this)
    unfold applyUpdate
    cases hok : (applyFields op doc fs).2 with
    | true =>
      rw [if_pos rfl]
      exact ih hstep hw (fun e2 he2 => hu e2 (List.mem_cons_of_mem _ he2))
    | false =>
      rw [if_neg (by simp)]
      exact hstep

/-- The claim-level collection invariant, strengthened for the induction:
keys are hashable and each stored document's `_id` value compares `==` to
its key. -/
def dbInv (s : DbState) : Prop :=
  ∀ p ∈ s, isHashable p.1 = true ∧
    ∃ v, dictGet p.2 "_id" = some v ∧ pyEq p.1 v = true

theorem dbInv_pyDictInsert {s : DbState} {k : Value} {d : Fields}
    (hs : dbInv s) (hk : isHashable k = true) (hd : dictGet d "_id" = some k) :
    dbInv (pyDictInsert s k d) := by
  induction s with
  | nil =>
    intro p hp
    simp only [pyDictInsert, List.mem_singleton] at hp
    subst hp
    exact ⟨hk, k, hd, pyEq_refl k⟩
  | cons q rest ih =>
    obtain ⟨k0, w0⟩ := q
    intro p hp
    unfold pyDictInsert at hp
    cases he : pyEq k0 k with
    | true =>
      rw [he] at hp
      simp only [if_pos rfl] at hp
      rcases List.mem_cons.mp hp with hhead | htail
      · subst hhead
        exact ⟨(hs (k0, w0) (List.mem_cons_self _ _)).1, k, hd, he⟩
      · exact hs p (List.mem_cons_of_mem _ htail)
    | false =>
      rw [he] at hp
      simp only [Bool.false_eq_true, if_false] at hp
      rcases List.mem_cons.mp hp with hhead | htail
      · subst hhead
        exact hs (k0, w0) (List.mem_cons_self _ _)
      · exact ih (fun q2 hq2 => hs q2 (List.mem_cons_of_mem _ hq2)) p htail

theorem dbInv_insert {s s' : DbState} {d : Fields} (hs : dbInv s)
    (hid : (dictGet d "_id").isSome = true) (hins : insertOne s d = some s') :
    dbInv s' := by
  obtain ⟨k, hk⟩ := Option.isSome_iff_exists.mp hid
  unfold insertOne at hins
  rw [hk] at hins
  simp only [Option.getD_some] at hins
  cases hh : isHashable k with
  | false => rw [hh] at hins; simp at hins
  | true =>
    rw [hh] at hins
    simp only [if_true, Option.some_inj] at hins
    subst hins
    exact dbInv_pyDictInsert hs hh hk

theorem dbInv_updateById {u : Update} {v : Value} (hu : noIdSet u) :
    ∀ {s : DbState}, dbInv s → dbInv (updateById u v s).1 := by
  intro s
  induction s with
  | nil => intro hs; exact hs
  | cons q rest ih =>
    obtain ⟨k, d⟩ := q
    intro hs
    unfold updateById
    cases he : pyEq k v with
    | true =>
      rw [if_pos rfl]
      intro p hp
      rcases List.mem_cons.mp hp with hhead | htail
      · obtain ⟨hhash, w, hw, hkw⟩ := hs (k, d) (List.mem_cons_self _ _)
        subst hhead
        exact ⟨hhash, w,
          applyUpdate_id u hw (pyEq_hashable hhash hkw) hu, hkw⟩
      · exact hs p (List.mem_cons_of_mem _ htail)
    | false =>
      rw [if_neg (by simp)]
      intro p hp
      rcases List.mem_cons.mp hp with hhead | htail
      · subst hhead
        exact hs (k, d) (List.mem_cons_self _ _)
      · exact ih (fun q2 hq2 => hs q2 (List.mem_cons_of_mem _ hq2)) p htail

theorem dbInv_updateByScan {f : Fields} {u : Update} (hu : noIdSet u) :
    ∀ {s : DbState}, dbInv s → dbInv (updateByScan f u s).1 := by
  intro s
  induction s with
  | nil => intro hs; exact hs
  | cons q rest ih =>
    obtain ⟨k, d⟩ := q
    intro hs
    unfold updateByScan
    cases hm : pyMatches d f with
    | none => exact hs
    | some b =>
      cases b with
      | true =>
        intro p hp
        rcases List.mem_cons.mp hp with hhead | htail
        · obtain ⟨hhash, w, hw, hkw⟩ := hs (k, d) (List.mem_cons_self _ _)
          subst hhead
          exact ⟨hhash, w,
            applyUpdate_id u hw (pyEq_hashable hhash hkw) hu, hkw⟩
        · exact hs p (List.mem_cons_of_mem _ htail)
      | false =>
        intro p hp
        rcases List.mem_cons.mp hp with hhead | htail
        · subst hhead
          exact hs (k, d) (List.mem_cons_self _ _)
        · exact ih (fun q2 hq2 => hs q2 (List.mem_cons_of_mem _ hq2)) p htail

theorem dbInv_update {s : DbState} (f : Fields) (u : Update) (hs : dbInv s)
    (hu : noIdSet u) : dbInv (update_one s f u).1 := by
  have haux : ∀ idv : Value,
      dbInv (if isHashable idv = true then updateById u idv s else (s, none)).1 := by
    intro idv
    by_cases hh : isHashable idv = true
    · rw [if_pos hh]; exact dbInv_updateById hu hs
    · rw [if_neg hh]; exact hs
  rw [update_one_eq]
  cases idProbe f with
  | null => exact dbInv_updateByScan hu hs
  | bool b => exact haux (Value.bool b)
  | int n => exact haux (Value.int n)
  | str t => exact haux (Value.str t)
  | list l => exact haux (Value.list l)
  | dict ds => exact haux (Value.dict ds)

/-- C2 counterexample: from the empty collection, inserting `{_id: 1}` and
then running `update_one({_id: 1}, {$set: {_id: 2}})` reaches a state whose
single document is stored under key `1` but carries `_id` value `2` — an
update operator *can* change a stored document's `_id` away from its key. -/
theorem c2_id_mutation_cex :
    Reachable (fun _ => True) [(Value.int 1, [("_id", Value.int 2)])] ∧
    dictGet [("_id", Value.int 2)] "_id" = some (Value.int 2) ∧
    pyEq (Value.int 1) (Value.int 2) = false := by
  refine ⟨?_, rfl, by simp [pyEq]⟩
  have h1 : insertOne [] [("_id", Value.int 1)] =
      some [(Value.int 1, [("_id", Value.int 1)])] := by
    simp [insertOne, dictGet, isHashable, pyDictInsert]
  have r1 := Reachable.insert (P := fun _ => True) Reachable.empty
    (s := []) (d := [("_id", Value.int 1)]) rfl h1
  have r2 := Reachable.update (P := fun _ => True)
    [("_id", Value.int 1)] [("$set", [("_id", Value.int 2)])] r1 trivial
  have heq : (update_one [(Value.int 1, [("_id", Value.int 1)])]
      [("_id", Value.int 1)] [("$set", [("_id", Value.int 2)])]).1 =
      [(Value.int 1, [("_id", Value.int 2)])] := by
    simp [update_one, idProbe, dictGet, isHashable, updateById, pyEq,
      applyUpdate, applyFields, applyField, dictSet]
  rw [heq] at r2
  exact r2

/-- C2 amended: for every state reachable from the empty collection by
`insert_one` of documents carrying an `_id` field and by `update_one` calls
whose `$set` field maps do not contain `_id`, every stored document carries
an `_id` value that compares `==` to its storage key. (`$push`/`$pull` on
`_id` need no side condition: against the scalar `_id` of a stored document
they raise or no-op without touching it. A `$set` on `_id` itself, excluded
here, breaks the invariant — see the counterexample.) -/
theorem c2_id_invariant {s : DbState} (h : Reachable noIdSet s) :
    ∀ p ∈ s, ∃ v, dictGet p.2 "_id" = some v ∧ pyEq p.1 v = true := by
  have inv : dbInv s := by
    induction h with
    | empty => intro p hp; simp at hp
    | insert hr hid hins ih => exact dbInv_insert ih hid hins
    | update f u hr hu ih => exact dbInv_update f u ih hu
  intro p hp
  exact (inv p hp).2

/-- C2 amended, witness: a one-insert, one-`$set`-on-`a` reachable state. -/
theorem c2_id_invariant_witness :
    ∃ v, dictGet [("_id", Value.str "x"), ("a", Value.int 1)] "_id" = some v ∧
      pyEq (Value.str "x") v = true := by
  have h1 : insertOne [] [("_id", Value.str "x")] =
      some [(Value.str "x", [("_id", Value.str "x")])] := by
    simp [insertOne, dictGet, isHashable, pyDictInsert]
  have r1 := Reachable.insert (P := noIdSet) Reachable.empty
    (s := []) (d := [("_id", Value.str "x")]) rfl h1
  have r2 := Reachable.update (P := noIdSet)
    [] [("$set", [("a", Value.int 1)])] r1
    (by intro e he hset q hq; simp at he; subst he; simp at hq; subst hq; simp)
  have heq : (update_one [(Value.str "x", [("_id", Value.str "x")])]
      [] [("$set", [("a", Value.int 1)])]).1 =
      [(Value.str "x", [("_id", Value.str "x"), ("a", Value.int 1)])] := by
    simp [update_one, idProbe, dictGet, updateByScan, pyMatches,
      applyUpdate, applyFields, applyField, dictSet]
  rw [heq] at r2
  exact c2_id_invariant r2
    (Value.str "x", [("_id", Value.str "x"), ("a", Value.int 1)])
    (List.mem_singleton.mpr rfl)

/-! ### C6 — stable multi-key `$sort` -/

theorem isInt_exists {v : Value} (h : v.isInt = true) : ∃ n, v = .int n := by
  cases v <;> simp_all [Value.isInt]

theorem pyLt_int (m n : Int) :
    pyLt (.int m) (.int n) = some (decide (m < n)) := by
  simp [pyLt]

theorem keyLt_int {k : String} {rev : Bool} {a b : Fields} {na nb : Int}
    (ha : sortKeyOf a k = .int na) (hb : sortKeyOf b k = .int nb) :
    keyLt k rev a b ↔ (if rev then nb < na else na < nb) := by
  cases rev <;> simp [keyLt, ha, hb, pyLt_int]

theorem keyEquiv_int {k : String} {a b : Fields} {na nb : Int}
    (ha : sortKeyOf a k = .int na) (hb : sortKeyOf b k = .int nb) :
    keyEquiv k a b ↔ na = nb := by
  simp [keyEquiv, ha, hb, pyEq]

theorem passLe_int {k : String} {rev : Bool} {a b : Fields} {na nb : Int}
    (ha : sortKeyOf a k = .int na) (hb : sortKeyOf b k = .int nb) :
    passLe k rev a b = true ↔ (if rev then nb ≤ na else na ≤ nb) := by
  cases rev <;> simp [passLe, ha, hb, pyLt_int]

theorem lexLe_trans :
    ∀ (spec : Fields) {a b c : Fields}, intKeyed spec a → intKeyed spec b →
      intKeyed spec c → lexLe spec a b → lexLe spec b c → lexLe spec a c
  | [], _, _, _, _, _, _, _, _ => trivial
  | (k, dir) :: rest, a, b, c, hga, hgb, hgc, hab, hbc => by
    obtain ⟨na, hna⟩ := isInt_exists (hga (k, dir) (List.mem_cons_self _ _))
    obtain ⟨nb, hnb⟩ := isInt_exists (hgb (k, dir) (List.mem_cons_self _ _))
    obtain ⟨nc, hnc⟩ := isInt_exists (hgc (k, dir) (List.mem_cons_self _ _))
    have hga' : intKeyed rest a := fun p hp => hga p (List.mem_cons_of_mem _ hp)
    have hgb' : intKeyed rest b := fun p hp => hgb p (List.mem_cons_of_mem _ hp)
    have hgc' : intKeyed rest c := fun p hp => hgc p (List.mem_cons_of_mem _ hp)
    rcases hab with hab | ⟨habe, habl⟩ <;> rcases hbc with hbc | ⟨hbce, hbcl⟩
    · exact Or.inl (by
        rw [keyLt_int hna hnc]
        rw [keyLt_int hna hnb] at hab
        rw [keyLt_int hnb hnc] at hbc
        cases hrev : pyEq dir (.int (-1)) <;> simp_all
        all_goals omega)
    · exact Or.inl (by
        rw [keyLt_int hna hnc]
        rw [keyLt_int hna hnb] at hab
        rw [keyEquiv_int hnb hnc] at hbce
        cases hrev : pyEq dir (.int (-1)) <;> simp_all)
    · exact Or.inl (by
        rw [keyLt_int hna hnc]
        rw [keyEquiv_int hna hnb] at habe
        rw [keyLt_int hnb hnc] at hbc
        cases hrev : pyEq dir (.int (-1)) <;> simp_all)
    · refine Or.inr ⟨?_, lexLe_trans rest hga' hgb' hgc' habl hbcl⟩
      rw [keyEquiv_int hna hnc]
      rw [keyEquiv_int hna hnb] at habe
      rw [keyEquiv_int hnb hnc] at hbce
      omega

theorem mem_insertSorted {α : Type} {le : α → α → Bool} {x z : α} {l : List α}
    (h : z ∈ insertSorted le x l) : z = x ∨ z ∈ l :=
  List.mem_cons.mp ((insertSorted_perm le x l).mem_iff.mp h)

theorem insertSorted_pairwise_lex {k : String} {dir : Value} {rest : Fields} :
    ∀ (l : List Fields) (x : Fields),
      (∀ y ∈ l, intKeyed ((k, dir) :: rest) y) →
      intKeyed ((k, dir) :: rest) x →
      l.Pairwise (lexLe ((k, dir) :: rest)) →
      (∀ y ∈ l, lexLe rest x y) →
      (insertSorted (passLe k (pyEq dir (.int (-1)))) x l).Pairwise
        (lexLe ((k, dir) :: rest))
  | [], x, _, _, _, _ => List.pairwise_singleton _ _
  | y :: ys, x, hG, hGx, hpw, hxy => by
    obtain ⟨hyz, hpw'⟩ := List.pairwise_cons.mp hpw
    obtain ⟨nx, hnx⟩ := isInt_exists (hGx (k, dir) (List.mem_cons_self _ _))
    obtain ⟨ny, hny⟩ := isInt_exists
      (hG y (List.mem_cons_self _ _) (k, dir) (List.mem_cons_self _ _))
    unfold insertSorted
    cases hle : passLe k (pyEq dir (.int (-1))) x y with
    | true =>
      rw [if_pos rfl]
      have hle' := (passLe_int hnx hny).mp hle
      have hxy0 : lexLe ((k, dir) :: rest) x y := by
        by_cases heq : nx = ny
        · exact Or.inr ⟨(keyEquiv_int hnx hny).mpr heq,
            hxy y (List.mem_cons_self _ _)⟩
        · refine Or.inl ((keyLt_int hnx hny).mpr ?_)
          cases hrev : pyEq dir (.int (-1)) <;> rw [hrev] at hle'
          all_goals simp_all
          all_goals omega
      refine List.Pairwise.cons (fun z hz => ?_) hpw
      rcases List.mem_cons.mp hz with hzy | hzys
      · exact hzy ▸ hxy0
      · exact lexLe_trans _ hGx (hG y (List.mem_cons_self _ _))
          (hG z (List.mem_cons_of_mem _ hzys)) hxy0 (hyz z hzys)
    | false =>
      rw [if_neg (by simp)]
      refine List.Pairwise.cons (fun z hz => ?_) ?_
      · rcases mem_insertSorted hz with hzx | hzys
        · subst hzx
          refine Or.inl ((keyLt_int hny hnx).mpr ?_)
          have hnot : ¬ (if pyEq dir (.int (-1)) then ny ≤ nx else nx ≤ ny) := by
            intro hc
            rw [← passLe_int hnx hny] at hc
            simp [hc] at hle
          cases hrev : pyEq dir (.int (-1)) <;> rw [hrev] at hnot
          all_goals simp_all
        · exact hyz z hzys
      · exact insertSorted_pairwise_lex ys x
          (fun q hq => hG q (List.mem_cons_of_mem _ hq)) hGx hpw'
          (fun q hq => hxy q (List.mem_cons_of_mem _ hq))

theorem isort_pairwise_lex {k : String} {dir : Value} {rest : Fields} :
    ∀ l : List Fields, (∀ y ∈ l, intKeyed ((k, dir) :: rest) y) →
      l.Pairwise (lexLe rest) →
      (isort (passLe k (pyEq dir (.int (-1)))) l).Pairwise
        (lexLe ((k, dir) :: rest))
  | [], _, _ => List.Pairwise.nil
  | x :: xs, hG, hpw => by
    obtain ⟨hxall, hpw'⟩ := List.pairwise_cons.mp hpw
    unfold isort
    exact insertSorted_pairwise_lex (isort _ xs) x
      (fun y hy => hG y (List.mem_cons_of_mem _ ((isort_perm _ xs).mem_iff.mp hy)))
      (hG x (List.mem_cons_self _ _))
      (isort_pairwise_lex xs (fun y hy => hG y (List.mem_cons_of_mem _ hy)) hpw')
      (fun y hy => hxall y ((isort_perm _ xs).mem_iff.mp hy))

theorem allComparable_int {k : String} {docs : List Fields}
    (h : ∀ d ∈ docs, (sortKeyOf d k).isInt = true) :
    allComparable (docs.map (sortKeyOf · k)) = true := by
  rw [allComparable, List.all_eq_true]
  intro a ha
  rw [List.all_eq_true]
  intro b hb
  obtain ⟨da, hda, rfl⟩ := List.mem_map.mp ha
  obtain ⟨db, hdb, rfl⟩ := List.mem_map.mp hb
  obtain ⟨na, hna⟩ := isInt_exists (h da hda)
  obtain ⟨nb, hnb⟩ := isInt_exists (h db hdb)
  rw [hna, hnb, pyLt_int]
  rfl

theorem pairwise_lexLe_nil : ∀ l : List Fields, l.Pairwise (lexLe [])
  | [] => List.Pairwise.nil
  | _ :: xs => List.Pairwise.cons (fun _ _ => trivial) (pairwise_lexLe_nil xs)

/-- Iterated single-key stable sorts, run in reverse declared order, produce
a permutation sorted by the multi-key lexicographic order (int keys). -/
theorem sortPasses_int_sorted :
    ∀ (spec : Fields) (docs : List Fields),
      (∀ d ∈ docs, intKeyed spec d) →
      ∃ out, sortPasses spec docs = some out ∧ docs.Perm out ∧
        out.Pairwise (lexLe spec)
  | [], docs, _ => ⟨docs, rfl, List.Perm.refl _, pairwise_lexLe_nil docs⟩
  | (k, dir) :: rest, docs, hG => by
    obtain ⟨out, hout, hperm, hpw⟩ := sortPasses_int_sorted rest docs
      (fun d hd p hp => hG d hd p (List.mem_cons_of_mem _ hp))
    have hGout : ∀ d ∈ out, intKeyed ((k, dir) :: rest) d :=
      fun d hd => hG d (hperm.mem_iff.mpr hd)
    have hcomp : allComparable (out.map (sortKeyOf · k)) = true :=
      allComparable_int (fun d hd =>
        hGout d hd (k, dir) (List.mem_cons_self _ _))
    refine ⟨isort (passLe k (pyEq dir (.int (-1)))) out, ?_, ?_, ?_⟩
    · show (sortPasses rest docs).bind (sortOnePass k (pyEq dir (.int (-1)))) = _
      rw [hout]
      show sortOnePass k (pyEq dir (.int (-1))) out = _
      rw [sortOnePass, if_pos hcomp]
    · exact hperm.trans (isort_perm _ out).symm
    · exact isort_pairwise_lex out hGout hpw

/-- C6: `$sort` is the composition of stable single-key sorts applied in
reverse declared order, so the first-declared key dominates: on any document
set whose sort keys are ints, the passes all succeed and produce a
permutation ordered by the spec's lexicographic multi-key order; in
particular `[{_id:1,a:1,b:2},{_id:2,a:1,b:1}]` sorted by `{a:1,b:1}` comes
out in the order `[2, 1]`. -/
theorem c6_multi_key_sort :
    (∀ (spec : Fields) (docs : List Fields),
      (∀ d ∈ docs, intKeyed spec d) →
      ∃ out, sortPasses spec docs = some out ∧ docs.Perm out ∧
        out.Pairwise (lexLe spec)) ∧
    aggregate
      [(Value.int 1,
        [("_id", Value.int 1), ("a", Value.int 1), ("b", Value.int 2)]),
       (Value.int 2,
        [("_id", Value.int 2), ("a", Value.int 1), ("b", Value.int 1)])]
      [[("$sort", .dict [("a", Value.int 1), ("b", Value.int 1)])]] =
      some [[("_id", Value.int 2), ("a", Value.int 1), ("b", Value.int 1)],
            [("_id", Value.int 1), ("a", Value.int 1), ("b", Value.int 2)]] := by
  refine ⟨sortPasses_int_sorted, ?_⟩
  simp [aggregate, aggStep, dictGet, sortPasses, sortOnePass, allComparable,
    sortKeyOf, passLe, isort, insertSorted, pyLt, pyEq, Option.bind]

/-- C6 witness: the general conjunct applied to an all-int single-key sort. -/
theorem c6_multi_key_sort_witness :
    ∃ out,
      sortPasses [("a", Value.int 1)]
        [[("a", Value.int 2)], [("a", Value.int 1)]] = some out ∧
      ([[("a", Value.int 2)], [("a", Value.int 1)]] : List Fields).Perm out ∧
      out.Pairwise (lexLe [("a", Value.int 1)]) :=
  c6_multi_key_sort.1 [("a", Value.int 1)]
    [[("a", Value.int 2)], [("a", Value.int 1)]] (by
      intro d hd p hp
      simp only [List.mem_singleton] at hp
      subst hp
      rcases List.mem_cons.mp hd with rfl | hd2
      · rfl
      · simp only [List.mem_singleton] at hd2
        subst hd2
        rfl)
